import Mathlib

/-!
Verification of the id3-go tag engine against its specification.

The Go sources are shallowly embedded: byte slices become `List Nat`
(entries are byte values), Go `uint32` arithmetic becomes `Nat` with an
explicit `% 2 ^ 32` where the code can wrap, fallible functions return
`Option`, and pointer-mutating methods become pure state transformers on
the `Tag` record.  Frame objects carry a `ref` field modelling Go pointer
identity (distinct heap objects have distinct refs), and the owner
back-pointer is modelled as `Option Unit`.
-/

set_option maxRecDepth 4000

namespace Id3

/-! ## Integer codec — encodedbytes/util.go -/

def BytesPerInt : Nat := 4

def SynchByteLength : Nat := 7

def NormByteLength : Nat := 8

/-- The accumulation loop of `ByteInt`.  Go's
`i = (i << base) | uint32(b)` is rendered arithmetically: after the
shift the low `base` bits of `i` are zero and `b < 2 ^ base` (checked
for `base < 8`; for `base = 8` the byte fits the cleared bits), so the
bitwise or is addition; `uint32` wrap-around is the `% 2 ^ 32`. -/
def byteIntLoop : List Nat → Nat → Nat → Option Nat
  | [], _, i => some i
  | b :: bs, base, i =>
      if base < 8 ∧ 2 ^ base ≤ b then none
      else byteIntLoop bs base ((i * 2 ^ base + b) % 2 ^ 32)

/-- `ByteInt` from encodedbytes/util.go: forms an integer from
concatenated `base`-bit chunks, rejecting inputs longer than 4 bytes and
(for `base < 8`) bytes exceeding `base` bits. -/
def ByteInt (buf : List Nat) (base : Nat) : Option Nat :=
  if BytesPerInt < buf.length then none
  else byteIntLoop buf base 0

def SynchInt (buf : List Nat) : Option Nat := ByteInt buf SynchByteLength

def NormInt (buf : List Nat) : Option Nat := ByteInt buf NormByteLength

/-- `IntBytes` from encodedbytes/util.go: the loop
`for i := range bytes { bytes[3-i] = byte(n & mask); n >>= base }`
unrolled; `n & mask` with `mask = 1<<base - 1` is `n % 2 ^ base`, the
`byte` conversion is `% 256`, and the `uint32` argument is `% 2 ^ 32`. -/
def IntBytes (n0 : Nat) (base : Nat) : List Nat :=
  [n0 % 2 ^ 32 / 2 ^ (3 * base) % 2 ^ base % 256,
   n0 % 2 ^ 32 / 2 ^ (2 * base) % 2 ^ base % 256,
   n0 % 2 ^ 32 / 2 ^ base % 2 ^ base % 256,
   n0 % 2 ^ 32 % 2 ^ base % 256]

def SynchBytes (n : Nat) : List Nat := IntBytes n SynchByteLength

def NormBytes (n : Nat) : List Nat := IntBytes n NormByteLength

/-! ## Text encoding registry — encodedbytes/util.go -/

structure Encoding where
  Name : String
  NullLength : Nat
deriving DecidableEq

def EncodingMap : List Encoding :=
  [{ Name := "ISO-8859-1", NullLength := 1 },
   { Name := "UTF-16", NullLength := 2 },
   { Name := "UTF-16BE", NullLength := 2 },
   { Name := "UTF-8", NullLength := 1 }]

/-- `EncodingForIndex`.  The Go guard is
`if encodingIndex < 0 || encodingIndex > len(EncodingMap)` (note `>`
rather than `>=`; `< 0` is impossible for a byte).  Indexing
`EncodingMap[encodingIndex]` is modelled by `List.get?`, where `none`
models the runtime out-of-range panic. -/
def EncodingForIndex (b : Nat) : Option String :=
  (EncodingMap.get? (if EncodingMap.length < b then 0 else b)).map Encoding.Name

/-- `EncodingNullLengthForIndex`, with the same `>` guard as
`EncodingForIndex`; `none` models the out-of-range panic. -/
def EncodingNullLengthForIndex (b : Nat) : Option Nat :=
  (EncodingMap.get? (if EncodingMap.length < b then 0 else b)).map Encoding.NullLength

/-- `IndexForEncoding`: first index whose entry has the given name,
`0` when no entry matches. -/
def IndexForEncoding (e : String) : Nat :=
  match EncodingMap.findIdx? (fun v => v.Name = e) with
  | some i => i
  | none => 0

/-! ## Frames and the v2 tag — v2/ sources -/

/-- A value implementing the `Framer` interface.  Only the interface
surface used by the tag container is modelled: `Id()` (`fid`, the
identifier's bytes), `Size()` (`fsize`, a `uint32`), the two v2.3/v2.4
flag bytes, `Bytes()` (`payload`), and the owner back-pointer set by
`setOwner` (`Option Unit`: `some ()` when owned by a tag).  `ref`
models Go pointer identity: distinct heap objects carry distinct refs,
so Go interface equality `frame == delFrame` is `ref` equality. -/
structure Frame where
  ref : Nat
  fid : List Nat
  statusFlags : Nat
  formatFlags : Nat
  fsize : Nat
  payload : List Nat
  owner : Option Unit
deriving DecidableEq

def clearOwner (f : Frame) : Frame := { f with owner := none }

def setOwned (f : Frame) : Frame := { f with owner := some () }

def HeaderSize : Nat := 10

/-- Modelled from the spec: `FrameHeaderSize`, declared in the v2 frame
code which is not under src/, is the v2.3/v2.4 frame header length of
10 bytes (spec §6: 4-byte id + 4-byte size + 2 flag bytes). -/
def FrameHeaderSize : Nat := 10

/-- Modelled from the spec: `V22FrameHeaderSize`, declared in the v2.2
frame code which is not under src/, is the v2.2 frame header length of
6 bytes (spec §6: 3-byte id + 3-byte size). -/
def V22FrameHeaderSize : Nat := 6

/-- The `Tag` structure of v2/id3v2.go merged with its embedded
`Header` (version, revision, flags, 28-bit size field).  The
version-bound function fields (`commonMap`, `frameConstructor`,
`frameBytesConstructor`) are not carried as data; the serializer and
parser modelled in this file are the v2.4 ones of
src/unnamed/part_000, and `frameHeaderSize` is kept as a field exactly
as in the source. -/
structure Tag where
  version : Nat
  revision : Nat
  flags : Nat
  size : Nat
  frames : List Frame
  padding : Nat
  frameHeaderSize : Nat
  dirty : Bool
deriving DecidableEq

/-- `NewTag`: fresh header with the given version, empty frame list,
zero size and padding, clean; the version switch fixes
`frameHeaderSize` (6 for v2.2, 10 for v2.3/v2.4 and the default). -/
def NewTag (version : Nat) : Tag :=
  { version := version, revision := 0, flags := 0, size := 0,
    frames := [], padding := 0,
    frameHeaderSize := if version = 2 then V22FrameHeaderSize else FrameHeaderSize,
    dirty := false }

def Tag.Size (t : Tag) : Nat := t.size

def Tag.Dirty (t : Tag) : Bool := t.dirty

def Tag.Padding (t : Tag) : Nat := t.padding

/-- `Tag.changeSize`: the single size-accounting primitive.
`d := int(t.padding) - diff`; when `d < 0` padding is exhausted and the
unabsorbed remainder is added to the `uint32` size field (`uint32(-d)`
and the wrapping `+=` are the two `% 2 ^ 32`); otherwise padding
becomes `d`.  Always marks dirty. -/
def Tag.changeSize (t : Tag) (diff : Int) : Tag :=
  if (t.padding : Int) - diff < 0 then
    { t with padding := 0,
             size := (t.size + (-((t.padding : Int) - diff)).toNat % 2 ^ 32) % 2 ^ 32,
             dirty := true }
  else
    { t with padding := ((t.padding : Int) - diff).toNat, dirty := true }

/-- `Tag.Frames(id)`: all frames with the given identifier, in list
order. -/
def Tag.Frames (t : Tag) (id : List Nat) : List Frame :=
  t.frames.filter (fun f => f.fid = id)

/-- `Tag.AllFrames`: a copy of the frame slice. -/
def Tag.AllFrames (t : Tag) : List Frame := t.frames

/-- `Tag.AddFrames`: for each frame, `changeSize(frameHeaderSize +
Size())`, append, `setOwner(t)`. -/
def Tag.AddFrames (t : Tag) (fs : List Frame) : Tag :=
  fs.foldl
    (fun t f =>
      let t1 := t.changeSize ((t.frameHeaderSize + f.fsize : Nat) : Int)
      { t1 with frames := t1.frames ++ [setOwned f] })
    t

/-- `Tag.DeleteFrames(id)`: captures `t.Frames(id)`, removes the
matching frames in place (stable for survivors) while summing their
footprint `diff`, then `changeSize(-diff)`.  The returned slice holds
the very pointers whose owner the loop set to nil, so in this value
model the matching frames are returned with owner cleared. -/
def Tag.DeleteFrames (t : Tag) (id : List Nat) : List Frame × Tag :=
  let matched := t.frames.filter (fun f => f.fid = id)
  let diff := matched.foldl (fun a f => a + (t.frameHeaderSize + f.fsize)) 0
  (matched.map clearOwner,
   Tag.changeSize { t with frames := t.frames.filter (fun f => ¬ f.fid = id) }
     (-(diff : Nat) : Int))

/-- `Tag.DeleteFrame(delFrame)`: captures `t.AllFrames()` (the whole
pre-deletion slice), removes the pointer-equal frames while summing
their footprint, then `changeSize(-diff)`.  The captured slice aliases
the removed frames, whose owner the loop set to nil, so the returned
list is the full pre-deletion list with matching entries' owner
cleared. -/
def Tag.DeleteFrame (t : Tag) (delFrame : Frame) : List Frame × Tag :=
  let matched := t.frames.filter (fun f => f.ref = delFrame.ref)
  let diff := matched.foldl (fun a f => a + (t.frameHeaderSize + f.fsize)) 0
  (t.frames.map (fun f => if f.ref = delFrame.ref then clearOwner f else f),
   Tag.changeSize { t with frames := t.frames.filter (fun f => ¬ f.ref = delFrame.ref) }
     (-(diff : Nat) : Int))

/-- Footprint of a frame list: the sum of
`frameHeaderSize + frame.Size()` over the frames. -/
def footprint (fhs : Nat) : List Frame → Nat
  | [] => 0
  | f :: fs => fhs + f.fsize + footprint fhs fs

/-- The size-accounting invariant of the spec's data model: the header
size field equals the frames' total footprint plus padding. -/
def Inv (t : Tag) : Prop :=
  t.size = footprint t.frameHeaderSize t.frames + t.padding

instance (t : Tag) : Decidable (Inv t) := by unfold Inv; infer_instance

/-! ## Serialization — Tag.Bytes, Header.Bytes, V24Bytes -/

/-- Go's builtin `copy(dst, src)`: overwrites the common prefix,
keeps the rest of `dst`, never changes `dst`'s length. -/
def goCopy : List Nat → List Nat → List Nat
  | [], _ => []
  | dst, [] => dst
  | _ :: ds, s :: ss => s :: goCopy ds ss

/-- `copy(data[index:index+size], src)`: copy into the sub-slice,
leaving the bytes before `index` and after `index+size` unchanged. -/
def writeSlice (data : List Nat) (index size : Nat) (src : List Nat) : List Nat :=
  data.take index ++ goCopy ((data.drop index).take size) src ++ (data.drop index).drop size

/-- `V24Bytes` (src/unnamed/part_000): frame id bytes, synch-safe size
of `uint32(f.Size())`, the two flag bytes, then the payload. -/
def V24Bytes (f : Frame) : List Nat :=
  f.fid ++ SynchBytes f.fsize ++ [f.statusFlags, f.formatFlags] ++ f.payload

/-- `Header.Bytes`: `"ID3"`, version, revision, flags, synch-safe
size.  The three one-byte fields hold byte values. -/
def Tag.headerBytes (t : Tag) : List Nat :=
  [73, 68, 51] ++ [t.version, t.revision, t.flags] ++ SynchBytes t.size

/-- The frame-serializing loop of `Tag.Bytes`: for each frame, copy its
serialization into `data[index:index+size]` with
`size = frameHeaderSize + f.Size()`, then advance `index`.  The frame
serializer is the v2.4 one; the v2.2/v2.3 serializers are not under
src/. -/
def framesData (fhs : Nat) : List Nat → Nat → List Frame → List Nat
  | data, _, [] => data
  | data, index, f :: fs =>
      framesData fhs (writeSlice data index (fhs + f.fsize) (V24Bytes f))
        (index + (fhs + f.fsize)) fs

/-- `Tag.Bytes`: a zero buffer of `t.Size()` bytes filled by the frame
loop, appended to the header bytes. -/
def Tag.Bytes (t : Tag) : List Nat :=
  t.headerBytes ++ framesData t.frameHeaderSize (List.replicate t.size 0) 0 t.frames

/-! ## In-memory commit — id3.go -/

/-- `shiftBytesBackInMem`: a fresh buffer of `len(blob)+offset` zero
bytes, the prefix `blob[:start]` copied to the front and the suffix
`blob[start:]` copied at `start+offset`; the `offset` bytes in between
remain zero. -/
def shiftBytesBackInMem (blob : List Nat) (start offset : Nat) : List Nat :=
  blob.take start ++ List.replicate offset 0 ++ blob.drop start

/-- The `*v2.Tag` arm of `Mp3Bytes.UpdateEditsIntoBytes`: a clean tag
returns the blob unchanged; a dirty tag that grew beyond
`originalSize` shifts the suffix after the original header+tag region
by the growth delta, then the new tag bytes are copied into
`blob[0:start+offset]`; a dirty tag that did not grow keeps
`start = offset = 0`. -/
def updateEditsIntoBytesV2 (blob : List Nat) (originalSize : Nat) (t : Tag) : List Nat :=
  if t.Dirty = false then blob
  else if originalSize < t.Size then
    writeSlice
      (shiftBytesBackInMem blob (originalSize + HeaderSize) (t.Size - originalSize)) 0
      ((originalSize + HeaderSize) + (t.Size - originalSize)) t.Bytes
  else
    writeSlice blob 0 0 t.Bytes

/-! ## Parsing — ParseHeader, ParseV24Frame, ParseTag -/

/-- `bytes.Trim(s, "\x00")`: strip leading and trailing zero bytes. -/
def trimZeros (l : List Nat) : List Nat :=
  ((l.dropWhile (fun b => b = 0)).reverse.dropWhile (fun b => b = 0)).reverse

/-- Modelled from the spec: the frame payload constructors
(`ParseDataFrame` and the per-id constructors of `V24FrameTypeMap`,
none of which are under src/) never fail — spec §4.3 dispatches
unknown ids to a generic data-frame constructor "rather than failing"
— and record the parsed header fields and payload.  `ref` is model
bookkeeping giving parsed frames distinct identities. -/
def mkParsedFrame (ref : Nat) (id : List Nat) (status format size : Nat)
    (dat : List Nat) : Frame :=
  { ref := ref, fid := id, statusFlags := status, formatFlags := format,
    fsize := size, payload := dat, owner := none }

/-- `ParseV24Frame` (src/unnamed/part_000): read a 10-byte header
(short read fails), trim the zero padding off the 4-byte id, decode the
synch-safe size (failure fails), stop (`nil`) on the all-zero
id-and-size header, read `size` payload bytes (short read fails).  The
result also carries the unconsumed remainder of the input. -/
def ParseV24Frame (ref : Nat) (input : List Nat) : Option (Frame × List Nat) :=
  if input.length < FrameHeaderSize then none
  else
    match SynchInt (((input.take FrameHeaderSize).drop 4).take 4) with
    | none => none
    | some size =>
        if trimZeros ((input.take FrameHeaderSize).take 4) = [] ∧ size = 0 then none
        else if (input.drop FrameHeaderSize).length < size then none
        else
          some (mkParsedFrame ref (trimZeros ((input.take FrameHeaderSize).take 4))
                  ((input.take FrameHeaderSize).getD 8 0)
                  ((input.take FrameHeaderSize).getD 9 0)
                  size ((input.drop FrameHeaderSize).take size),
                (input.drop FrameHeaderSize).drop size)

/-- The frame loop of `ParseTag`: while declared size remains, parse a
frame; a `nil` frame breaks the loop; otherwise append it, set its
owner, and subtract its footprint.  Modelled with the v2.4 frame
parser (`frameHeaderSize = FrameHeaderSize = 10`); the v2.2/v2.3 frame
parsers are not under src/. -/
def parseTagLoop (sizeLeft : Int) (input : List Nat) (acc : List Frame) :
    List Frame × Int :=
  if h0 : sizeLeft ≤ 0 then (acc, sizeLeft)
  else
    match ParseV24Frame acc.length input with
    | none => (acc, sizeLeft)
    | some (f, rest) =>
        parseTagLoop (sizeLeft - ((FrameHeaderSize : Int) + (f.fsize : Int))) rest
          (acc ++ [setOwned f])
termination_by sizeLeft.toNat
decreasing_by simp only [FrameHeaderSize]; omega

/-- `ParseHeader` (v2/header.go part of id3.go): 10 bytes, `"ID3"`
magic, synch-safe size from bytes 6–9; returns
(version, revision, flags, size).  The per-version flag booleans are
derived bits not used by any operation modelled here. -/
def ParseHeader (input : List Nat) : Option (Nat × Nat × Nat × Nat) :=
  if input.length < HeaderSize then none
  else if input.take 3 = [73, 68, 51] then
    match SynchInt ((input.drop 6).take 4) with
    | none => none
    | some size => some (input.getD 3 0, input.getD 4 0, input.getD 5 0, size)
  else none

/-- Go's `uint(i)` conversion of a (64-bit) signed int. -/
def intToUint (i : Int) : Nat := (i % 2 ^ 64).toNat

/-- `ParseTag`: parse the header, build the tag via `NewTag` with the
parsed header installed, run the frame loop over the remaining input,
and turn the leftover declared size into padding (`uint(size)`).  The
final absolute `Seek` cannot fail on an in-memory reader at a
non-negative offset. -/
def ParseTag (input : List Nat) : Option Tag :=
  match ParseHeader input with
  | none => none
  | some (version, revision, flags, size) =>
      some { { NewTag version with revision := revision, flags := flags, size := size } with
             frames := (parseTagLoop (size : Int) (input.drop HeaderSize) []).1,
             padding := intToUint (parseTagLoop (size : Int) (input.drop HeaderSize) []).2 }

/-! ## Concrete sample data for counterexamples and witnesses -/

def frameA : Frame :=
  { ref := 1, fid := [84, 73, 84, 50], statusFlags := 0, formatFlags := 0,
    fsize := 1, payload := [65], owner := some () }

def frameB : Frame :=
  { ref := 2, fid := [84, 80, 69, 49], statusFlags := 0, formatFlags := 0,
    fsize := 1, payload := [66], owner := some () }

def frameC : Frame :=
  { ref := 3, fid := [84, 65, 76, 66], statusFlags := 0, formatFlags := 0,
    fsize := 2, payload := [67, 68], owner := none }

def tagPadded : Tag :=
  { version := 4, revision := 0, flags := 0, size := 100, frames := [],
    padding := 20, frameHeaderSize := 10, dirty := false }

def tagTwoFrames : Tag :=
  { version := 4, revision := 0, flags := 0, size := 22, frames := [frameA, frameB],
    padding := 0, frameHeaderSize := 10, dirty := false }

def tagOnlyPadding : Tag :=
  { version := 4, revision := 0, flags := 0, size := 1, frames := [],
    padding := 1, frameHeaderSize := 10, dirty := false }

def tagGrown : Tag :=
  { version := 4, revision := 0, flags := 0, size := 11, frames := [frameA],
    padding := 0, frameHeaderSize := 10, dirty := true }

/-! # Theorems -/

/-! ## Integer codec lemmas -/

theorem byteIntLoop_step (bs : List Nat) (base i b : Nat)
    (hb : ¬ (base < 8 ∧ 2 ^ base ≤ b)) :
    byteIntLoop (b :: bs) base i = byteIntLoop bs base ((i * 2 ^ base + b) % 2 ^ 32) := by
  simp [byteIntLoop, hb]

theorem byteIntLoop_lt (buf : List Nat) (base i : Nat) (hi : i < 2 ^ 32) :
    ∀ r, byteIntLoop buf base i = some r → r < 2 ^ 32 := by
  induction buf generalizing i with
  | nil => intro r h; simp [byteIntLoop] at h; omega
  | cons b bs ih =>
      intro r h
      rw [byteIntLoop] at h
      split at h
      · exact absurd h (by simp)
      · exact ih _ (Nat.mod_lt _ (by norm_num)) r h

theorem byteIntLoop_seven (a b c d : Nat) (ha : a < 128) (hb : b < 128)
    (hc : c < 128) (hd : d < 128) :
    byteIntLoop [a, b, c, d] 7 0 = some (((a * 128 + b) * 128 + c) * 128 + d) := by
  rw [byteIntLoop_step _ _ _ _ (by omega), byteIntLoop_step _ _ _ _ (by omega),
      byteIntLoop_step _ _ _ _ (by omega), byteIntLoop_step _ _ _ _ (by omega)]
  simp only [byteIntLoop, Option.some.injEq]
  omega

theorem byteIntLoop_eight (a b c d : Nat) (ha : a < 256) (hb : b < 256)
    (hc : c < 256) (hd : d < 256) :
    byteIntLoop [a, b, c, d] 8 0 = some (((a * 256 + b) * 256 + c) * 256 + d) := by
  rw [byteIntLoop_step _ _ _ _ (by omega), byteIntLoop_step _ _ _ _ (by omega),
      byteIntLoop_step _ _ _ _ (by omega), byteIntLoop_step _ _ _ _ (by omega)]
  simp only [byteIntLoop, Option.some.injEq]
  omega

theorem synchInt_cons (a b c d : Nat) (ha : a < 128) (hb : b < 128)
    (hc : c < 128) (hd : d < 128) :
    SynchInt [a, b, c, d] = some (((a * 128 + b) * 128 + c) * 128 + d) := by
  rw [SynchInt, ByteInt]
  simp only [BytesPerInt, List.length_cons, List.length_nil]
  rw [if_neg (by omega)]
  exact byteIntLoop_seven a b c d ha hb hc hd

theorem normInt_cons (a b c d : Nat) (ha : a < 256) (hb : b < 256)
    (hc : c < 256) (hd : d < 256) :
    NormInt [a, b, c, d] = some (((a * 256 + b) * 256 + c) * 256 + d) := by
  rw [NormInt, ByteInt]
  simp only [BytesPerInt, List.length_cons, List.length_nil]
  rw [if_neg (by omega)]
  exact byteIntLoop_eight a b c d ha hb hc hd

theorem synchInt_lt (buf : List Nat) (r : Nat) (h : SynchInt buf = some r) :
    r < 2 ^ 32 := by
  rw [SynchInt, ByteInt] at h
  split at h
  · exact absurd h (by simp)
  · exact byteIntLoop_lt buf _ 0 (by norm_num) r h

/-- C8: for every `n` representable in 28 bits,
`SynchInt (SynchBytes n)` returns `n` with no error, and for every
`uint32` value `m`, `NormInt (NormBytes m)` returns `m` with no
error — the 7-bit and 8-bit byte/integer conversions round-trip. -/
theorem c8_roundtrip (n m : Nat) (hn : n < 2 ^ 28) (hm : m < 2 ^ 32) :
    SynchInt (SynchBytes n) = some n ∧ NormInt (NormBytes m) = some m := by
  constructor
  · rw [SynchBytes, IntBytes]
    simp only [SynchByteLength]
    rw [synchInt_cons _ _ _ _ (by omega) (by omega) (by omega) (by omega)]
    simp only [Option.some.injEq]
    omega
  · rw [NormBytes, IntBytes]
    simp only [NormByteLength]
    rw [normInt_cons _ _ _ _ (by omega) (by omega) (by omega) (by omega)]
    simp only [Option.some.injEq]
    omega

theorem c8_roundtrip_witness :
    144619524 < 2 ^ 28 ∧ 3000000000 < 2 ^ 32 ∧
      (SynchInt (SynchBytes 144619524) = some 144619524 ∧
        NormInt (NormBytes 3000000000) = some 3000000000) :=
  ⟨by norm_num, by norm_num,
   c8_roundtrip 144619524 3000000000 (by norm_num) (by norm_num)⟩

/-- C9: the claim says every out-of-range index defaults to the
ISO-8859-1 entry and the lookups never fail, but the Go bounds check
reads `encodingIndex > len(EncodingMap)` instead of `>=`, so the
in-code index 4 survives the check and `EncodingMap[4]` panics
(modelled as `none`); every other byte behaves as claimed, and unknown
names map to index 0. -/
theorem c9_encoding_index_bug :
    EncodingForIndex 4 = none ∧ EncodingNullLengthForIndex 4 = none ∧
      EncodingForIndex 0 = some "ISO-8859-1" ∧ EncodingForIndex 3 = some "UTF-8" ∧
      EncodingForIndex 5 = some "ISO-8859-1" ∧ EncodingForIndex 255 = some "ISO-8859-1" ∧
      EncodingNullLengthForIndex 5 = some 1 ∧
      IndexForEncoding "UTF-16" = 1 ∧ IndexForEncoding "no-such-name" = 0 := by
  refine ⟨rfl, rfl, rfl, rfl, rfl, rfl, rfl, ?_, ?_⟩ <;> decide

/-! ## Size-accounting lemmas -/

theorem changeSize_grow (t : Tag) (d : Nat) (h : t.size + d < 2 ^ 32) :
    (t.changeSize (d : Int)).size = t.size + (d - min d t.padding) ∧
      (t.changeSize (d : Int)).padding = t.padding - min d t.padding ∧
      (t.changeSize (d : Int)).frames = t.frames ∧
      (t.changeSize (d : Int)).frameHeaderSize = t.frameHeaderSize ∧
      (t.changeSize (d : Int)).dirty = true := by
  rw [Tag.changeSize]
  split
  · refine ⟨?_, ?_, rfl, rfl, rfl⟩ <;> dsimp only <;> omega
  · refine ⟨?_, ?_, rfl, rfl, rfl⟩ <;> dsimp only <;> omega

theorem changeSize_shrink (t : Tag) (d : Nat) :
    (t.changeSize (-(d : Int))).size = t.size ∧
      (t.changeSize (-(d : Int))).padding = t.padding + d ∧
      (t.changeSize (-(d : Int))).frames = t.frames ∧
      (t.changeSize (-(d : Int))).frameHeaderSize = t.frameHeaderSize ∧
      (t.changeSize (-(d : Int))).dirty = true := by
  rw [Tag.changeSize, if_neg (by omega)]
  refine ⟨rfl, ?_, rfl, rfl, rfl⟩
  dsimp only
  omega

theorem footprint_append (fhs : Nat) (l : List Frame) (f : Frame) :
    footprint fhs (l ++ [f]) = footprint fhs l + (fhs + f.fsize) := by
  induction l with
  | nil => simp [footprint]
  | cons g gs ih =>
      rw [List.cons_append, footprint, footprint, ih]
      omega

theorem foldl_footprint (fhs : Nat) (l : List Frame) (n : Nat) :
    l.foldl (fun a f => a + (fhs + f.fsize)) n = n + footprint fhs l := by
  induction l generalizing n with
  | nil => simp [footprint]
  | cons g gs ih => simp only [List.foldl_cons, footprint, ih]; omega

theorem footprint_split (fhs : Nat) (p : Frame → Prop) [DecidablePred p]
    (l : List Frame) :
    footprint fhs l =
      footprint fhs (l.filter (fun f => p f)) +
        footprint fhs (l.filter (fun f => ¬ p f)) := by
  induction l with
  | nil => simp [footprint]
  | cons g gs ih =>
      by_cases h : p g
      · rw [List.filter_cons_of_pos (by simpa using h),
            List.filter_cons_of_neg (by simpa using h), footprint, footprint, ih]
        omega
      · rw [List.filter_cons_of_neg (by simpa using h),
            List.filter_cons_of_pos (by simpa using h), footprint, footprint, ih]
        omega

theorem addFrames_inv (fs : List Frame) (t : Tag) (hInv : Inv t)
    (hov : t.size + footprint t.frameHeaderSize fs < 2 ^ 32) :
    Inv (t.AddFrames fs) ∧
      (t.AddFrames fs).size ≤ t.size + footprint t.frameHeaderSize fs ∧
      (t.AddFrames fs).frameHeaderSize = t.frameHeaderSize := by
  induction fs generalizing t with
  | nil => exact ⟨hInv, by simp [Tag.AddFrames, footprint], rfl⟩
  | cons f fs ih =>
      have hst : t.size + (t.frameHeaderSize + f.fsize) < 2 ^ 32 := by
        have : footprint t.frameHeaderSize (f :: fs) =
            t.frameHeaderSize + f.fsize + footprint t.frameHeaderSize fs := rfl
        omega
      obtain ⟨hs, hp, hf, hh, _⟩ := changeSize_grow t (t.frameHeaderSize + f.fsize) hst
      set cs := t.changeSize ((t.frameHeaderSize + f.fsize : Nat) : Int) with hcs
      have step : t.AddFrames (f :: fs) =
          Tag.AddFrames { cs with frames := cs.frames ++ [setOwned f] } fs := rfl
      set t1 : Tag := { cs with frames := cs.frames ++ [setOwned f] } with ht1
      have ht1h : t1.frameHeaderSize = t.frameHeaderSize := hh
      have ht1inv : Inv t1 := by
        show t1.size = footprint t1.frameHeaderSize t1.frames + t1.padding
        rw [show t1.size = cs.size from rfl, show t1.padding = cs.padding from rfl,
            show t1.frames = cs.frames ++ [setOwned f] from rfl, ht1h, hf,
            footprint_append, show (setOwned f).fsize = f.fsize from rfl, hs, hp]
        rw [Inv] at hInv
        omega
      have ht1ov : t1.size + footprint t1.frameHeaderSize fs < 2 ^ 32 := by
        rw [show t1.size = cs.size from rfl, ht1h]
        have : footprint t.frameHeaderSize (f :: fs) =
            t.frameHeaderSize + f.fsize + footprint t.frameHeaderSize fs := rfl
        omega
      obtain ⟨ih1, ih2, ih3⟩ := ih t1 ht1inv ht1ov
      refine ⟨step ▸ ih1, ?_, step ▸ (ih3.trans ht1h)⟩
      rw [step]
      have : footprint t.frameHeaderSize (f :: fs) =
          t.frameHeaderSize + f.fsize + footprint t.frameHeaderSize fs := rfl
      rw [ht1h] at ih2
      have hsz : t1.size = cs.size := rfl
      omega

theorem deleteFrames_inv (t : Tag) (id : List Nat) (hInv : Inv t) :
    Inv (t.DeleteFrames id).2 := by
  rw [Tag.DeleteFrames]
  obtain ⟨hs, hp, hf, hh, _⟩ := changeSize_shrink
    { t with frames := t.frames.filter (fun f => ¬ f.fid = id) }
    ((t.frames.filter (fun f => f.fid = id)).foldl
      (fun a f => a + (t.frameHeaderSize + f.fsize)) 0)
  show Inv (Tag.changeSize _ _)
  rw [Inv, hs, hp, hf, hh]
  rw [foldl_footprint]
  rw [Inv] at hInv
  have := footprint_split t.frameHeaderSize (fun f => f.fid = id) t.frames
  dsimp only
  omega

theorem deleteFrame_inv (t : Tag) (df : Frame) (hInv : Inv t) :
    Inv (t.DeleteFrame df).2 := by
  rw [Tag.DeleteFrame]
  obtain ⟨hs, hp, hf, hh, _⟩ := changeSize_shrink
    { t with frames := t.frames.filter (fun f => ¬ f.ref = df.ref) }
    ((t.frames.filter (fun f => f.ref = df.ref)).foldl
      (fun a f => a + (t.frameHeaderSize + f.fsize)) 0)
  show Inv (Tag.changeSize _ _)
  rw [Inv, hs, hp, hf, hh]
  rw [foldl_footprint]
  rw [Inv] at hInv
  have := footprint_split t.frameHeaderSize (fun f => f.ref = df.ref) t.frames
  dsimp only
  omega

/-- C1: the size-accounting invariant — the header size field equals
the sum of `frameHeaderSize + frame.Size()` over all frames plus
padding — holds for every tag produced by `NewTag` and is preserved by
`AddFrames` (while the `uint32` size field does not wrap),
`DeleteFrames`, and `DeleteFrame`. -/
theorem c1_size_invariant (v : Nat) (t : Tag) (fs : List Frame) (id : List Nat)
    (f : Frame) (hInv : Inv t)
    (hov : t.size + footprint t.frameHeaderSize fs < 2 ^ 32) :
    Inv (NewTag v) ∧ Inv (t.AddFrames fs) ∧
      Inv (t.DeleteFrames id).2 ∧ Inv (t.DeleteFrame f).2 :=
  ⟨by simp [Inv, NewTag, footprint], (addFrames_inv fs t hInv hov).1,
   deleteFrames_inv t id hInv, deleteFrame_inv t f hInv⟩

theorem c1_size_invariant_witness :
    Inv (NewTag 3) ∧
      (NewTag 3).size + footprint (NewTag 3).frameHeaderSize [frameA] < 2 ^ 32 ∧
      (Inv (NewTag 2) ∧ Inv ((NewTag 3).AddFrames [frameA]) ∧
        Inv (((NewTag 3).DeleteFrames [84, 73, 84, 50]).2) ∧
        Inv (((NewTag 3).DeleteFrame frameB).2)) :=
  ⟨by decide, by decide,
   c1_size_invariant 2 (NewTag 3) [frameA] [84, 73, 84, 50] frameB
     (by decide) (by decide)⟩

/-- C2 counterexample: with `padding = 20` and `size = 100`,
`changeSize 5` behaves as claimed, but the subsequent `changeSize 30`
increases the size field by 15 (the 30 bytes minus the 15 bytes of
remaining padding), not by the claimed 10. -/
theorem c2_changeSize_counterexample :
    (tagPadded.changeSize 5).Padding = 15 ∧
      (tagPadded.changeSize 5).Size = tagPadded.Size ∧
      ((tagPadded.changeSize 5).changeSize 30).Padding = 0 ∧
      ((tagPadded.changeSize 5).changeSize 30).Size = 115 ∧
      ¬ (((tagPadded.changeSize 5).changeSize 30).Size = tagPadded.Size + 10) := by
  decide

/-- C2 (amended): for a tag with `padding = 20`, `changeSize 5` leaves
the size field unchanged and sets padding to 15; a subsequent
`changeSize 30` sets padding to 0 and increases the size field by 15
(the growth minus the 15 bytes of padding still available), not 10. -/
theorem c2_changeSize_amended (t : Tag) (hpad : t.padding = 20)
    (hov : t.size + 15 < 2 ^ 32) :
    (t.changeSize 5).Padding = 15 ∧ (t.changeSize 5).Size = t.Size ∧
      ((t.changeSize 5).changeSize 30).Padding = 0 ∧
      ((t.changeSize 5).changeSize 30).Size = t.Size + 15 := by
  have hp1 : (t.changeSize 5).padding = 15 := by
    rw [Tag.changeSize, if_neg (by omega)]
    dsimp only
    omega
  have hs1 : (t.changeSize 5).size = t.size := by
    rw [Tag.changeSize, if_neg (by omega)]
  set u := t.changeSize 5 with hu
  have hp2 : (u.changeSize 30).padding = 0 := by
    rw [Tag.changeSize, if_pos (by omega)]
  have hs2 : (u.changeSize 30).size = t.size + 15 := by
    rw [Tag.changeSize, if_pos (by omega)]
    dsimp only
    omega
  exact ⟨hp1, hs1, hp2, hs2⟩

theorem c2_changeSize_amended_witness :
    tagPadded.padding = 20 ∧ tagPadded.size + 15 < 2 ^ 32 ∧
      ((tagPadded.changeSize 5).Padding = 15 ∧
        (tagPadded.changeSize 5).Size = tagPadded.Size ∧
        ((tagPadded.changeSize 5).changeSize 30).Padding = 0 ∧
        ((tagPadded.changeSize 5).changeSize 30).Size = tagPadded.Size + 15) :=
  ⟨rfl, by decide, c2_changeSize_amended tagPadded rfl (by decide)⟩

/-- C3 counterexample: on a tag with 20 bytes of padding, adding a
frame of footprint 11 leaves `Size()` at 100 — the growth is absorbed
by padding — while the claim predicts 111. -/
theorem c3_addFrames_counterexample :
    (tagPadded.AddFrames [frameA]).Size = 100 ∧
      tagPadded.Size + tagPadded.frameHeaderSize + frameA.fsize = 111 ∧
      ¬ ((tagPadded.AddFrames [frameA]).Size =
          tagPadded.Size + tagPadded.frameHeaderSize + frameA.fsize) := by
  decide

/-- C3 (amended): after `AddFrames f` the tag is dirty and the size
field grows only by the part of `frameHeaderSize + f.Size()` not
absorbed by padding (padding shrinks by the absorbed part); the
claimed equation `Size' = Size + frameHeaderSize + f.Size()` holds
exactly when the tag had no padding. -/
theorem c3_addFrames_amended (t : Tag) (f : Frame)
    (hov : t.size + (t.frameHeaderSize + f.fsize) < 2 ^ 32) :
    (t.AddFrames [f]).Size =
        t.Size + ((t.frameHeaderSize + f.fsize) -
          min (t.frameHeaderSize + f.fsize) t.Padding) ∧
      (t.AddFrames [f]).Padding =
        t.Padding - min (t.frameHeaderSize + f.fsize) t.Padding ∧
      (t.AddFrames [f]).Dirty = true ∧
      (t.Padding = 0 →
        (t.AddFrames [f]).Size = t.Size + (t.frameHeaderSize + f.fsize)) := by
  obtain ⟨hs, hp, _, _, hd⟩ := changeSize_grow t (t.frameHeaderSize + f.fsize) hov
  have e1 : (t.AddFrames [f]).size =
      (t.changeSize ((t.frameHeaderSize + f.fsize : Nat) : Int)).size := rfl
  have e2 : (t.AddFrames [f]).padding =
      (t.changeSize ((t.frameHeaderSize + f.fsize : Nat) : Int)).padding := rfl
  have e3 : (t.AddFrames [f]).dirty =
      (t.changeSize ((t.frameHeaderSize + f.fsize : Nat) : Int)).dirty := rfl
  refine ⟨?_, ?_, ?_, ?_⟩
  · show (t.AddFrames [f]).size = t.size +
      ((t.frameHeaderSize + f.fsize) - min (t.frameHeaderSize + f.fsize) t.padding)
    rw [e1, hs]
  · show (t.AddFrames [f]).padding =
      t.padding - min (t.frameHeaderSize + f.fsize) t.padding
    rw [e2, hp]
  · show (t.AddFrames [f]).dirty = true
    rw [e3, hd]
  · intro h0
    have h0' : t.padding = 0 := h0
    show (t.AddFrames [f]).size = t.size + (t.frameHeaderSize + f.fsize)
    rw [e1, hs]
    omega

theorem c3_addFrames_amended_witness :
    tagPadded.size + (tagPadded.frameHeaderSize + frameA.fsize) < 2 ^ 32 ∧
      ((tagPadded.AddFrames [frameA]).Size =
          tagPadded.Size + ((tagPadded.frameHeaderSize + frameA.fsize) -
            min (tagPadded.frameHeaderSize + frameA.fsize) tagPadded.Padding) ∧
        (tagPadded.AddFrames [frameA]).Padding =
          tagPadded.Padding -
            min (tagPadded.frameHeaderSize + frameA.fsize) tagPadded.Padding ∧
        (tagPadded.AddFrames [frameA]).Dirty = true ∧
        (tagPadded.Padding = 0 →
          (tagPadded.AddFrames [frameA]).Size =
            tagPadded.Size + (tagPadded.frameHeaderSize + frameA.fsize))) :=
  ⟨by decide, c3_addFrames_amended tagPadded frameA (by decide)⟩

/-- C10: deleting by an identifier no frame carries, or deleting a
frame that is not in the tag, returns an empty result
(`DeleteFrames`) resp. the unchanged frame list (`DeleteFrame`),
leaves the frame list, size field, and padding unchanged, and still
marks the tag dirty because `changeSize 0` runs. -/
theorem c10_delete_noop (t : Tag) (id : List Nat) (f : Frame)
    (hid : ∀ g ∈ t.frames, ¬ g.fid = id)
    (href : ∀ g ∈ t.frames, ¬ g.ref = f.ref) :
    ((t.DeleteFrames id).1 = [] ∧
      (t.DeleteFrames id).2.frames = t.frames ∧
      (t.DeleteFrames id).2.Size = t.Size ∧
      (t.DeleteFrames id).2.Padding = t.Padding ∧
      (t.DeleteFrames id).2.Dirty = true) ∧
    ((t.DeleteFrame f).1 = t.frames ∧
      (t.DeleteFrame f).2.frames = t.frames ∧
      (t.DeleteFrame f).2.Size = t.Size ∧
      (t.DeleteFrame f).2.Padding = t.Padding ∧
      (t.DeleteFrame f).2.Dirty = true) := by
  have h1 : t.frames.filter (fun g => g.fid = id) = [] := by
    rw [List.filter_eq_nil_iff]
    intro g hg
    simpa using hid g hg
  have h2 : t.frames.filter (fun g => ¬ g.fid = id) = t.frames := by
    rw [List.filter_eq_self]
    intro g hg
    simpa using hid g hg
  have h3 : t.frames.filter (fun g => g.ref = f.ref) = [] := by
    rw [List.filter_eq_nil_iff]
    intro g hg
    simpa using href g hg
  have h4 : t.frames.filter (fun g => ¬ g.ref = f.ref) = t.frames := by
    rw [List.filter_eq_self]
    intro g hg
    simpa using href g hg
  have h5 : (t.frames.map fun g => if g.ref = f.ref then clearOwner g else g)
      = t.frames := by
    rw [List.map_congr_left (fun g hg => if_neg (href g hg))]
    exact List.map_id' t.frames
  constructor
  · simp only [Tag.DeleteFrames, h1, h2, List.foldl_nil, List.map_nil]
    obtain ⟨hs, hp, hf, _, hd⟩ := changeSize_shrink { t with frames := t.frames } 0
    exact ⟨trivial, hf, hs, hp.trans (Nat.add_zero _), hd⟩
  · simp only [Tag.DeleteFrame, h3, h4, h5, List.foldl_nil]
    obtain ⟨hs, hp, hf, _, hd⟩ := changeSize_shrink { t with frames := t.frames } 0
    exact ⟨trivial, hf, hs, hp.trans (Nat.add_zero _), hd⟩

theorem c10_delete_noop_witness :
    (∀ g ∈ tagTwoFrames.frames, ¬ g.fid = [0, 0, 0, 0]) ∧
      (∀ g ∈ tagTwoFrames.frames, ¬ g.ref = frameC.ref) ∧
      (((tagTwoFrames.DeleteFrames [0, 0, 0, 0]).1 = [] ∧
          (tagTwoFrames.DeleteFrames [0, 0, 0, 0]).2.frames = tagTwoFrames.frames ∧
          (tagTwoFrames.DeleteFrames [0, 0, 0, 0]).2.Size = tagTwoFrames.Size ∧
          (tagTwoFrames.DeleteFrames [0, 0, 0, 0]).2.Padding = tagTwoFrames.Padding ∧
          (tagTwoFrames.DeleteFrames [0, 0, 0, 0]).2.Dirty = true) ∧
        ((tagTwoFrames.DeleteFrame frameC).1 = tagTwoFrames.frames ∧
          (tagTwoFrames.DeleteFrame frameC).2.frames = tagTwoFrames.frames ∧
          (tagTwoFrames.DeleteFrame frameC).2.Size = tagTwoFrames.Size ∧
          (tagTwoFrames.DeleteFrame frameC).2.Padding = tagTwoFrames.Padding ∧
          (tagTwoFrames.DeleteFrame frameC).2.Dirty = true)) :=
  ⟨by decide, by decide,
   c10_delete_noop tagTwoFrames [0, 0, 0, 0] frameC (by decide) (by decide)⟩

/-- C4 counterexample: deleting a frame that is not in the tag
(`frameC`, whose ref matches no frame of `tagTwoFrames`) returns the
full pre-deletion frame list `[frameA, frameB]`, not the claimed empty
result: `DeleteFrame` returns the slice captured by `t.AllFrames()`
before the removal loop runs. -/
theorem c4_deleteFrame_counterexample :
    tagTwoFrames.frames.filter (fun g => g.ref = frameC.ref) = [] ∧
      (tagTwoFrames.DeleteFrame frameC).1 = [frameA, frameB] ∧
      ¬ ((tagTwoFrames.DeleteFrame frameC).1 = []) := by
  decide

/-- C4 (amended): `DeleteFrame f` removes exactly the occurrences of
`f` (pointer equality) keeping the survivors in order, clears the
removed frames' owner reference, and marks the tag dirty — but it
returns the entire pre-deletion frame list (with the removed entries'
owner cleared through aliasing), not just the removed frames; in
particular the result is non-empty whenever the tag had frames, even
if `f` was not among them. -/
theorem c4_deleteFrame_amended (t : Tag) (f : Frame) :
    (t.DeleteFrame f).1 =
        t.frames.map (fun g => if g.ref = f.ref then clearOwner g else g) ∧
      (t.DeleteFrame f).2.frames = t.frames.filter (fun g => ¬ g.ref = f.ref) ∧
      (t.DeleteFrame f).2.Dirty = true := by
  obtain ⟨_, _, hf, _, hd⟩ := changeSize_shrink
    { t with frames := t.frames.filter (fun g => ¬ g.ref = f.ref) }
    ((t.frames.filter (fun g => g.ref = f.ref)).foldl
      (fun a g => a + (t.frameHeaderSize + g.fsize)) 0)
  exact ⟨rfl, hf, hd⟩

/-! ## Serialization lemmas -/

theorem goCopy_eq (dst src : List Nat) :
    goCopy dst src = src.take dst.length ++ dst.drop src.length := by
  induction dst generalizing src with
  | nil => simp [goCopy]
  | cons d ds ih =>
      cases src with
      | nil => simp [goCopy]
      | cons s ss => simp [goCopy, ih]

theorem goCopy_length (dst src : List Nat) : (goCopy dst src).length = dst.length := by
  rw [goCopy_eq]
  simp only [List.length_append, List.length_take, List.length_drop]
  omega

theorem goCopy_full (dst src : List Nat) (h : dst.length = src.length) :
    goCopy dst src = src := by
  rw [goCopy_eq, h, List.take_length, ← h, List.drop_length, List.append_nil]

theorem writeSlice_length (data src : List Nat) (index size : Nat) :
    (writeSlice data index size src).length = data.length := by
  rw [writeSlice]
  simp only [List.length_append, goCopy_length, List.length_take, List.length_drop]
  omega

theorem writeSlice_at_end (done rest src : List Nat) (size : Nat) :
    writeSlice (done ++ rest) done.length size src =
      done ++ goCopy (rest.take size) src ++ rest.drop size := by
  rw [writeSlice, List.take_left, List.drop_left]

theorem framesData_length (fhs : Nat) (fs : List Frame) :
    ∀ data index, (framesData fhs data index fs).length = data.length := by
  induction fs with
  | nil => intro data index; rfl
  | cons f fs ih =>
      intro data index
      rw [framesData, ih, writeSlice_length]

theorem v24Bytes_length (f : Frame) (hid : f.fid.length = 4)
    (hpl : f.payload.length = f.fsize) :
    (V24Bytes f).length = FrameHeaderSize + f.fsize := by
  simp only [V24Bytes, SynchBytes, IntBytes, FrameHeaderSize, List.length_append,
    List.length_cons, List.length_nil, hid, hpl]

theorem framesData_concat (fs : List Frame) :
    ∀ (done : List Nat) (pad : Nat),
      (∀ f ∈ fs, f.fid.length = 4 ∧ f.payload.length = f.fsize) →
      framesData FrameHeaderSize
          (done ++ List.replicate (footprint FrameHeaderSize fs + pad) 0)
          done.length fs
        = done ++ (fs.map V24Bytes).flatten ++ List.replicate pad 0 := by
  induction fs with
  | nil =>
      intro done pad _
      simp [framesData, footprint]
  | cons f fs ih =>
      intro done pad hwf
      obtain ⟨hid, hpl⟩ := hwf f (List.mem_cons_self _ _)
      have hlen : (V24Bytes f).length = FrameHeaderSize + f.fsize :=
        v24Bytes_length f hid hpl
      have hfp : footprint FrameHeaderSize (f :: fs) + pad =
          (FrameHeaderSize + f.fsize) + (footprint FrameHeaderSize fs + pad) := by
        rw [footprint]; omega
      rw [framesData, hfp, List.replicate_add]
      rw [writeSlice_at_end]
      rw [List.take_left' (by simp), List.drop_left' (by simp)]
      rw [goCopy_full _ _ (by simp [hlen])]
      have hidx : done.length + (FrameHeaderSize + f.fsize) =
          (done ++ V24Bytes f).length := by
        simp [hlen]
      rw [hidx, ih (done ++ V24Bytes f) pad
        (fun g hg => hwf g (List.mem_cons_of_mem _ hg))]
      simp

theorem headerBytes_length (t : Tag) : t.headerBytes.length = HeaderSize := by
  simp [Tag.headerBytes, SynchBytes, IntBytes, HeaderSize]

theorem bytes_length (t : Tag) : t.Bytes.length = HeaderSize + t.Size := by
  rw [Tag.Bytes, List.length_append, headerBytes_length, framesData_length]
  simp [Tag.Size]

/-- C5 counterexample: a tag with one byte of padding and no frames
serializes to 11 bytes — the 10 header bytes plus one zero byte of
padding — so `Bytes()` does emit bytes beyond the header and the
frames' serializations, contrary to the claim. -/
theorem c5_bytes_counterexample :
    tagOnlyPadding.Bytes.length = 11 ∧
      (tagOnlyPadding.headerBytes ++ (tagOnlyPadding.frames.map V24Bytes).flatten).length
        = 10 ∧
      ¬ (tagOnlyPadding.Bytes =
          tagOnlyPadding.headerBytes ++ (tagOnlyPadding.frames.map V24Bytes).flatten) := by
  decide

/-- C5 (amended): for a well-formed v2.3/v2.4 tag satisfying the size
invariant, `Bytes()` emits the header bytes, then each frame's
serialized header+payload in frame-list order, then `Padding()` zero
bytes — the zero-filled buffer is allocated at the full declared size,
so the padding region is emitted (as zeros) within this call, and the
total length is `HeaderSize + Size()`. -/
theorem c5_bytes_amended (t : Tag) (hInv : Inv t)
    (hfhs : t.frameHeaderSize = FrameHeaderSize)
    (hwf : ∀ f ∈ t.frames, f.fid.length = 4 ∧ f.payload.length = f.fsize) :
    t.Bytes = t.headerBytes ++ (t.frames.map V24Bytes).flatten ++
        List.replicate t.Padding 0 ∧
      t.Bytes.length = HeaderSize + t.Size := by
  constructor
  · rw [Tag.Bytes, hfhs]
    have hsz : t.size = footprint t.frameHeaderSize t.frames + t.padding := hInv
    rw [hfhs] at hsz
    rw [hsz]
    have h := framesData_concat t.frames [] t.padding hwf
    simpa using h
  · exact bytes_length t

theorem c5_bytes_amended_witness :
    Inv tagGrown ∧ tagGrown.frameHeaderSize = FrameHeaderSize ∧
      (∀ f ∈ tagGrown.frames, f.fid.length = 4 ∧ f.payload.length = f.fsize) ∧
      (tagGrown.Bytes = tagGrown.headerBytes ++
          (tagGrown.frames.map V24Bytes).flatten ++ List.replicate tagGrown.Padding 0 ∧
        tagGrown.Bytes.length = HeaderSize + tagGrown.Size) :=
  ⟨by decide, by decide, by decide,
   c5_bytes_amended tagGrown (by decide) (by decide) (by decide)⟩

/-- C6: for the in-memory commit of a dirty v2 tag that grew
(`Size() > originalSize`), the result is exactly the new tag bytes
followed by the original trailing payload: the buffer grows by exactly
`Size() - originalSize` bytes, and every byte originally at an offset
at or past `originalSize + HeaderSize` reappears shifted forward by
exactly that delta, content and order preserved, after the tag bytes
are written at offset 0. -/
theorem c6_update_shift (blob : List Nat) (originalSize : Nat) (t : Tag)
    (hd : t.Dirty = true) (hgrow : originalSize < t.Size)
    (hlen : originalSize + HeaderSize ≤ blob.length) :
    updateEditsIntoBytesV2 blob originalSize t =
        t.Bytes ++ blob.drop (originalSize + HeaderSize) ∧
      (updateEditsIntoBytesV2 blob originalSize t).length =
        blob.length + (t.Size - originalSize) ∧
      ∀ i : Nat, originalSize + HeaderSize ≤ i →
        (updateEditsIntoBytesV2 blob originalSize t)[i + (t.Size - originalSize)]? =
          blob[i]? := by
  have htake : (blob.take (originalSize + HeaderSize)).length = originalSize + HeaderSize := by
    simp only [List.length_take]
    omega
  have hE : updateEditsIntoBytesV2 blob originalSize t =
      t.Bytes ++ blob.drop (originalSize + HeaderSize) := by
    rw [updateEditsIntoBytesV2, if_neg (by rw [hd]; simp), if_pos hgrow,
        shiftBytesBackInMem, writeSlice]
    simp only [List.take_zero, List.drop_zero, List.nil_append]
    have hpre : (blob.take (originalSize + HeaderSize) ++
        List.replicate (t.Size - originalSize) 0).length =
        (originalSize + HeaderSize) + (t.Size - originalSize) := by
      simp only [List.length_append, List.length_replicate, htake]
    rw [List.take_left' hpre, List.drop_left' hpre]
    rw [goCopy_full _ _ (by rw [hpre, bytes_length]; omega)]
  refine ⟨hE, ?_, ?_⟩
  · rw [hE, List.length_append, bytes_length, List.length_drop]
    omega
  · intro i hi
    rw [hE]
    rw [List.getElem?_append_right (by rw [bytes_length]; omega)]
    rw [show i + (t.Size - originalSize) - t.Bytes.length =
        i - (originalSize + HeaderSize) from by rw [bytes_length]; omega]
    rw [List.getElem?_drop]
    rw [show originalSize + HeaderSize + (i - (originalSize + HeaderSize)) = i from by
      omega]

theorem c6_update_shift_witness :
    tagGrown.Dirty = true ∧ 0 < tagGrown.Size ∧
      0 + HeaderSize ≤ (List.replicate 12 7).length ∧
      (updateEditsIntoBytesV2 (List.replicate 12 7) 0 tagGrown =
          tagGrown.Bytes ++ (List.replicate 12 7).drop (0 + HeaderSize) ∧
        (updateEditsIntoBytesV2 (List.replicate 12 7) 0 tagGrown).length =
          (List.replicate 12 7).length + (tagGrown.Size - 0) ∧
        (updateEditsIntoBytesV2 (List.replicate 12 7) 0 tagGrown)[11 + (tagGrown.Size - 0)]? =
          (List.replicate 12 7)[11]?) :=
  ⟨by decide, by decide, by decide,
   (c6_update_shift (List.replicate 12 7) 0 tagGrown (by decide) (by decide)
       (by decide)).1,
   (c6_update_shift (List.replicate 12 7) 0 tagGrown (by decide) (by decide)
       (by decide)).2.1,
   (c6_update_shift (List.replicate 12 7) 0 tagGrown (by decide) (by decide)
       (by decide)).2.2 11 (by decide)⟩

/-! ## Parsing lemmas -/

theorem parseTagLoop_none (sizeLeft : Int) (input : List Nat) (acc : List Frame)
    (hpos : 0 < sizeLeft) (hnone : ParseV24Frame acc.length input = none) :
    parseTagLoop sizeLeft input acc = (acc, sizeLeft) := by
  rw [parseTagLoop, dif_neg (by omega), hnone]

theorem parseV24Frame_stop (ref : Nat) (input : List Nat) (s1 s2 : Nat)
    (h : input.take 10 = [0, 0, 0, 0, 0, 0, 0, 0, s1, s2]) :
    ParseV24Frame ref input = none := by
  have hlen : 10 ≤ input.length := by
    have h10 := congrArg List.length h
    simp only [List.length_take, List.length_cons, List.length_nil] at h10
    omega
  rw [ParseV24Frame]
  simp only [FrameHeaderSize]
  rw [if_neg (by omega)]
  rw [show ((input.take 10).drop 4).take 4 = [0, 0, 0, 0] from by rw [h]; rfl]
  rw [show SynchInt [0, 0, 0, 0] = some 0 from rfl]
  dsimp only
  rw [if_pos ⟨by rw [show (input.take 10).take 4 = [0, 0, 0, 0] from by rw [h]; rfl]; rfl,
      rfl⟩]

theorem parseV24Frame_truncated (ref : Nat) (input : List Nat) (sz : Nat)
    (hlen : 10 ≤ input.length)
    (hsz : SynchInt (((input.take 10).drop 4).take 4) = some sz)
    (htr : input.length - 10 < sz) :
    ParseV24Frame ref input = none := by
  rw [ParseV24Frame]
  simp only [FrameHeaderSize]
  rw [if_neg (by omega), hsz]
  dsimp only
  rw [if_neg (by rintro ⟨-, h0⟩; omega)]
  rw [if_pos (by simp only [List.length_drop]; omega)]

/-- C7: during frame parsing, (1) a frame header whose id and size
bytes are all zero stops the frame scan, returning the accumulated
frames and the remaining declared size unchanged; (2) a header whose
declared size exceeds the bytes still available aborts the scan,
discarding the partial frame and keeping all previously parsed frames;
and (3) end to end, `ParseTag` on a valid header followed by such an
end-of-frames marker yields a tag with no frames whose padding is the
whole remaining declared size. -/
theorem c7_parse_stop (sizeLeft : Int) (input : List Nat) (acc : List Frame)
    (hpos : 0 < sizeLeft) :
    (∀ s1 s2 : Nat, input.take 10 = [0, 0, 0, 0, 0, 0, 0, 0, s1, s2] →
        parseTagLoop sizeLeft input acc = (acc, sizeLeft)) ∧
      (∀ sz : Nat, 10 ≤ input.length →
        SynchInt (((input.take 10).drop 4).take 4) = some sz →
        input.length - 10 < sz →
        parseTagLoop sizeLeft input acc = (acc, sizeLeft)) ∧
      (∀ (v r fl : Nat) (sb body : List Nat) (s s1 s2 : Nat),
        sb.length = 4 → SynchInt sb = some s → 0 < s →
        body.take 10 = [0, 0, 0, 0, 0, 0, 0, 0, s1, s2] →
        ParseTag (73 :: 68 :: 51 :: v :: r :: fl :: (sb ++ body)) =
          some { NewTag v with
                 revision := r, flags := fl, size := s,
                 frames := [], padding := s }) := by
  refine ⟨?_, ?_, ?_⟩
  · intro s1 s2 h
    exact parseTagLoop_none sizeLeft input acc hpos
      (parseV24Frame_stop acc.length input s1 s2 h)
  · intro sz hlen hsz htr
    exact parseTagLoop_none sizeLeft input acc hpos
      (parseV24Frame_truncated acc.length input sz hlen hsz htr)
  · intro v r fl sb body s s1 s2 hsb hsyn hs hbody
    have hblen : 10 ≤ body.length := by
      have h10 := congrArg List.length hbody
      simp only [List.length_take, List.length_cons, List.length_nil] at h10
      omega
    have hhead : ParseHeader (73 :: 68 :: 51 :: v :: r :: fl :: (sb ++ body)) =
        some (v, r, fl, s) := by
      rw [ParseHeader]
      simp only [HeaderSize]
      rw [if_neg (by simp only [List.length_cons, List.length_append, hsb]; omega)]
      rw [if_pos (show List.take 3 (73 :: 68 :: 51 :: v :: r :: fl :: (sb ++ body))
        = [73, 68, 51] from rfl)]
      rw [show ((73 :: 68 :: 51 :: v :: r :: fl :: (sb ++ body)).drop 6).take 4 = sb from
        List.take_left' hsb]
      rw [hsyn]
      rfl
    have hdrop : (73 :: 68 :: 51 :: v :: r :: fl :: (sb ++ body)).drop 10 = body := by
      show (sb ++ body).drop 4 = body
      exact List.drop_left' hsb
    have hloop : parseTagLoop ((s : Nat) : Int)
        ((73 :: 68 :: 51 :: v :: r :: fl :: (sb ++ body)).drop 10) [] = ([], (s : Int)) := by
      rw [hdrop]
      exact parseTagLoop_none _ body [] (by exact_mod_cast hs)
        (parseV24Frame_stop 0 body s1 s2 hbody)
    have hsmall : s < 2 ^ 32 := synchInt_lt sb s hsyn
    rw [ParseTag]
    simp only [HeaderSize] at hloop ⊢
    rw [hhead]
    dsimp only
    rw [hloop]
    dsimp only
    rw [show intToUint ((s : Nat) : Int) = s from by rw [intToUint]; omega]

theorem c7_parse_stop_witness :
    (0 : Int) < 5 ∧
      parseTagLoop 5 (List.replicate 10 0) [] = ([], 5) ∧
      parseTagLoop 5 [0, 0, 0, 0, 0, 0, 0, 3, 0, 0, 1, 1] [] = ([], 5) ∧
      ParseTag (73 :: 68 :: 51 :: 4 :: 0 :: 0 :: ([0, 0, 0, 5] ++ List.replicate 10 0)) =
        some { NewTag 4 with
               revision := 0, flags := 0, size := 5,
               frames := [], padding := 5 } :=
  ⟨by decide,
   (c7_parse_stop 5 (List.replicate 10 0) [] (by decide)).1 0 0 (by decide),
   (c7_parse_stop 5 [0, 0, 0, 0, 0, 0, 0, 3, 0, 0, 1, 1] [] (by decide)).2.1 3
     (by decide) (by decide) (by decide),
   (c7_parse_stop 5 [] [] (by decide)).2.2 4 0 0 [0, 0, 0, 5] (List.replicate 10 0)
     5 0 0 (by decide) (by decide) (by decide) (by decide)⟩

end Id3

